import Mathlib

/-!
# Verification of PDFCraft's core logic

A shallow embedding of the PDFCraft repository's original logic:

* `BookmarkAnalyzer.get_split_points` (src/bookmark_analyzer.py), the
  bookmark-to-page-range derivation;
* `BookmarkAnalyzer.filter_by_level` / `filter_by_keywords`;
* `PDFSplitter._create_split_pdf` / `split_pdf` / `_generate_filename`
  (src/pdf_splitter.py);
* the exit-code logic of `PDFCraftCLI.run` (pdfcraft.py) and
  `CLIHandler.run` (src/cli_handler.py).

Modelling conventions: Python `str` values are `List Char`; Python's
1-indexed page numbers are `Nat` (every subtraction in the source is
guarded by a strict comparison, so truncated subtraction agrees with
Python's integer subtraction on the values that can occur); `None` is
`Option.none`; a collaborator call that touches the filesystem is
abstracted as an oracle parameter; a Python call that may raise is an
`Except Unit` value.
-/

/-- A bookmark record as built by `BookmarkAnalyzer._parse_outline`
(src/bookmark_analyzer.py): `{'title': ..., 'page': ..., 'level': ...}`,
with `page` 1-indexed. -/
structure Bookmark where
  title : List Char
  page : Nat
  level : Nat
deriving DecidableEq, Repr

/-- A split point as built by `BookmarkAnalyzer.get_split_points`:
`end_page = none` models Python's `None` (open end, resolved to the
document's page count by the splitter). -/
structure SplitPoint where
  title : List Char
  start_page : Nat
  end_page : Option Nat
  level : Nat
deriving DecidableEq, Repr

/-- The comparison key of `sorted(bookmarks, key=lambda x: x['page'])`
in `get_split_points` (bookmark_analyzer.py line 259). -/
def pageLE (a b : Bookmark) : Prop := a.page ≤ b.page

instance : DecidableRel pageLE := fun a b => Nat.decLe a.page b.page

instance : IsTotal Bookmark pageLE := ⟨fun a b => Nat.le_total a.page b.page⟩

instance : IsTrans Bookmark pageLE := ⟨fun _ _ _ h h' => Nat.le_trans h h'⟩

/-- The duplicate-page removal loop of `get_split_points`
(bookmark_analyzer.py lines 262-267): walk the sorted list, keep a
bookmark only when its page has not been seen, record seen pages.
`seen` models the `seen_pages` set as the list of recorded pages. -/
def dedupByPage : List Bookmark → List Nat → List Bookmark
  | [], _ => []
  | b :: rest, seen =>
    if b.page ∈ seen then dedupByPage rest seen
    else b :: dedupByPage rest (b.page :: seen)

/-- The pairing loop of `get_split_points` (bookmark_analyzer.py lines
271-296): bookmark `i` becomes a split point ending just before the next
bookmark's page when that page is strictly greater, is skipped
(`continue`) otherwise, and the final bookmark gets an open end
(`end_page = None`). -/
def buildSplitPoints : List Bookmark → List SplitPoint
  | [] => []
  | b :: rest =>
    match rest with
    | [] => [⟨b.title, b.page, none, b.level⟩]
    | b2 :: _ =>
      if b.page < b2.page then
        ⟨b.title, b.page, some (b2.page - 1), b.level⟩ :: buildSplitPoints rest
      else
        buildSplitPoints rest

/-- `BookmarkAnalyzer.get_split_points` (bookmark_analyzer.py lines
242-299): empty input short-circuits to `[]`; otherwise sort stably by
page (Python's `sorted` is stable; modelled by `List.insertionSort`,
which is stable for a non-strict order), drop duplicate pages keeping
the first occurrence, and pair up consecutive bookmarks into ranges. -/
def get_split_points (bookmarks : List Bookmark) : List SplitPoint :=
  if bookmarks = [] then []
  else buildSplitPoints (dedupByPage (List.insertionSort pageLE bookmarks) [])

/-- `BookmarkAnalyzer.filter_by_level` (bookmark_analyzer.py lines
193-208): keep bookmarks with `level <= max_level`. -/
def filter_by_level (bookmarks : List Bookmark) (max_level : Nat) : List Bookmark :=
  bookmarks.filter (fun b => b.level ≤ max_level)

/-- `BookmarkAnalyzer.filter_by_keywords` (bookmark_analyzer.py lines
210-240): empty keyword list returns the input; otherwise keep bookmarks
whose (case-folded unless case-sensitive) title contains some
(case-folded) keyword as a substring. Python's `keyword in title` is
substring containment, modelled as list infix containment. -/
def filter_by_keywords (bookmarks : List Bookmark) (keywords : List (List Char))
    (case_sensitive : Bool) : List Bookmark :=
  if keywords = [] then bookmarks
  else bookmarks.filter (fun b =>
    let t := if case_sensitive then b.title else b.title.map Char.toLower
    let kws := if case_sensitive then keywords else keywords.map (List.map Char.toLower)
    kws.any (fun k => decide (k <:+: t)))

/-- Python's regex class `\w` (word character) as used in
`_generate_filename` (pdf_splitter.py line 187), modelled over ASCII:
letters, digits and the underscore. -/
def isWordChar (c : Char) : Bool := c.isAlphanum || c = '_'

/-- Python's regex class `\s` (whitespace), modelled over ASCII:
space, tab, newline, carriage return, vertical tab, form feed. -/
def isSpaceChar (c : Char) : Bool :=
  c = ' ' || c = '\t' || c = '\n' || c = '\r' || c = '\x0b' || c = '\x0c'

/-- A character matched by the class `[-\s]` of the second substitution
in `_generate_filename` (pdf_splitter.py line 188). -/
def isSepChar (c : Char) : Bool := isSpaceChar c || c = '-'

/-- `re.sub(r'[^\w\s-]', '', title)` (pdf_splitter.py line 187): delete
every character that is not a word character, whitespace or hyphen. -/
def stripIllegal (s : List Char) : List Char :=
  s.filter (fun c => isWordChar c || isSepChar c)

/-- The run-collapsing substitution `re.sub(r'[-\s]+', '_', s)`
(pdf_splitter.py line 188) as a left-to-right scan: the flag records
whether the previous character belonged to the current hyphen/whitespace
run, so each maximal run contributes a single underscore. -/
def collapseSepsAux : List Char → Bool → List Char
  | [], _ => []
  | c :: rest, inRun =>
    if isSepChar c then
      if inRun then collapseSepsAux rest true
      else '_' :: collapseSepsAux rest true
    else c :: collapseSepsAux rest false

/-- `re.sub(r'[-\s]+', '_', s)` (pdf_splitter.py line 188). -/
def collapseSeps (s : List Char) : List Char := collapseSepsAux s false

/-- Remove trailing underscores (the right half of Python's
`str.strip('_')`, pdf_splitter.py line 189). -/
def dropTrailingUnderscores (s : List Char) : List Char :=
  (s.reverse.dropWhile (fun c => c = '_')).reverse

/-- Python's `clean_title.strip('_')` (pdf_splitter.py line 189):
remove leading and trailing underscores. -/
def stripUnderscores (s : List Char) : List Char :=
  dropTrailingUnderscores (s.dropWhile (fun c => c = '_'))

/-- The decimal digit character for `d < 10`. -/
def digitChar (d : Nat) : Char := Char.ofNat (48 + d)

/-- Decimal digits of `n`, most significant first, via a fuel-driven
division loop (`fuel` is an upper bound on the number of digits). -/
def natDigitsAux : Nat → Nat → List Char
  | 0, _ => []
  | fuel + 1, n =>
    if n < 10 then [digitChar n]
    else natDigitsAux fuel (n / 10) ++ [digitChar (n % 10)]

/-- The decimal representation of `n`, as produced by Python's `d`
format conversion. -/
def natDigits (n : Nat) : List Char := natDigitsAux (n + 1) n

/-- Python's format specification `{:03d}` (pdf_splitter.py line 197):
decimal digits left-padded with zeros to at least width 3. -/
def pad3 (n : Nat) : List Char :=
  List.replicate (3 - (natDigits n).length) '0' ++ natDigits n

/-- The title-cleaning part of `PDFSplitter._generate_filename`
(pdf_splitter.py lines 186-198): strip illegal characters, collapse
hyphen/whitespace runs to underscores, strip leading/trailing
underscores, truncate to 50 characters, and fall back to
`section_{index+1:03d}` when the result is empty. Returns the filename
stem (the `.pdf` suffix is appended by `generate_filename`). -/
def sanitizeTitle (title : List Char) (index : Nat) : List Char :=
  let clean1 := stripIllegal title
  let clean2 := collapseSeps clean1
  let clean3 := stripUnderscores clean2
  let clean4 := if clean3.length > 50 then clean3.take 50 else clean3
  if clean4 = [] then "section_".toList ++ pad3 (index + 1)
  else clean4

/-- `PDFSplitter._generate_filename` (pdf_splitter.py lines 175-199). -/
def generate_filename (title : List Char) (index : Nat) : List Char :=
  sanitizeTitle title index ++ ".pdf".toList

/-- The open-end resolution at the top of `PDFSplitter._create_split_pdf`
(pdf_splitter.py lines 104-108): `if end_page is None: end_page =
total_pages`. -/
def resolveEnd (e : Option Nat) (total_pages : Nat) : Nat := e.getD total_pages

/-- `PDFSplitter._create_split_pdf` (pdf_splitter.py lines 87-173).
`copyOk page_num` abstracts whether copying 0-indexed page `page_num`
out of the source PDF succeeds (lines 126-152 skip a failing page and
continue). The result is `none` when the split point is skipped (bad
range, line 119) or aborted (zero pages copied, line 159), and otherwise
the written file's name together with the 0-indexed pages actually
copied into it. -/
def create_split_pdf (sp : SplitPoint) (total_pages index : Nat)
    (copyOk : Nat → Bool) : Option (List Char × List Nat) :=
  let start_page := sp.start_page - 1
  let end_page := resolveEnd sp.end_page total_pages
  let start_page := max 0 start_page
  let end_page := min total_pages end_page
  if start_page ≥ end_page then none
  else
    let pages_added := (List.range' start_page (end_page - start_page)).filter copyOk
    if pages_added.length = 0 then none
    else some (generate_filename sp.title index, pages_added)

/-- The splitting loop of `PDFSplitter.split_pdf` (pdf_splitter.py lines
65-76) over the enumerated split points: append the created file's name
when `_create_split_pdf` returns one, otherwise move on. -/
def splitLoop (total_pages : Nat) (copyOk : Nat → Bool) :
    List (Nat × SplitPoint) → List (List Char)
  | [] => []
  | (i, sp) :: rest =>
    match create_split_pdf sp total_pages i copyOk with
    | none => splitLoop total_pages copyOk rest
    | some (f, _) => f :: splitLoop total_pages copyOk rest

/-- `PDFSplitter.split_pdf` (pdf_splitter.py lines 29-81), restricted to
its pure content: the list of file names actually created, given the
source document's page count and the page-copy oracle. -/
def split_pdf (split_points : List SplitPoint) (total_pages : Nat)
    (copyOk : Nat → Bool) : List (List Char) :=
  splitLoop total_pages copyOk split_points.enum

/-- Lower-casing of a Python string (`str.lower`), ASCII model. -/
def lowerStr (s : List Char) : List Char := s.map Char.toLower

/-- `PDFCraftCLI.validate_arguments` (pdfcraft.py lines 182-214):
the operation must be `split` (case-insensitive); a truthy `post` must
be `tomd` (case-insensitive); for `split`, `source` must be truthy and
either `--level` or `--keywords` must be given. `none` and `some []`
both model falsy Python values (absent option / empty string). -/
def validate_arguments (ops : List Char) (post : Option (List Char))
    (source : Option (List Char)) (level : Option Nat)
    (keywords : List (List Char)) : Bool :=
  if lowerStr ops ≠ "split".toList then false
  else if (match post with
           | some p => decide (p ≠ [] ∧ lowerStr p ≠ "tomd".toList)
           | none => false) then false
  else if lowerStr ops = "split".toList then
    if (match source with | none => true | some s => decide (s = [])) then false
    else if level = none ∧ keywords = [] then false
    else true
  else true

/-- The outcomes of the effectful collaborator calls made during one CLI
run. A `.error` value models the Python call raising; `load = .ok b`
models `load_pdf` returning a value whose truthiness is `b`;
`interrupted` models a `KeyboardInterrupt` arriving during the body. -/
structure RunEnv where
  interrupted : Bool
  load : Except Unit Bool
  extract : Except Unit (List Bookmark)
  split : Except Unit (List (List Char))
  post : Except Unit Unit

/-- The filter dispatch shared by `CLIHandler.run` (cli_handler.py lines
181-188) and `PDFCraftCLI.execute_split_operation` (pdfcraft.py lines
236-245): `args.level is not None` selects the level filter, else a
truthy `args.keywords` selects the keyword filter, else no filtering. -/
def applyFilter (level : Option Nat) (keywords : List (List Char))
    (case_sensitive : Bool) (bookmarks : List Bookmark) : List Bookmark :=
  match level with
  | some l => filter_by_level bookmarks l
  | none =>
    if keywords ≠ [] then filter_by_keywords bookmarks keywords case_sensitive
    else bookmarks

/-- The exit code of `CLIHandler.run` (src/cli_handler.py lines
147-232): 1 on interrupt or any raised exception, on a falsy load
result, on empty extracted bookmarks, on an empty filter result and on
an empty split result; 0 otherwise. `convert` is
`args.convert_markdown`. -/
def CLIHandler_run (env : RunEnv) (level : Option Nat)
    (keywords : List (List Char)) (case_sensitive convert : Bool) : Nat :=
  if env.interrupted then 1
  else match env.load with
  | .error _ => 1
  | .ok pathOk =>
    if !pathOk then 1
    else match env.extract with
    | .error _ => 1
    | .ok bookmarks =>
      if bookmarks = [] then 1
      else
        let filtered := applyFilter level keywords case_sensitive bookmarks
        if filtered = [] then 1
        else match env.split with
        | .error _ => 1
        | .ok files =>
          if files = [] then 1
          else match (if convert then env.post else .ok ()) with
          | .error _ => 1
          | .ok _ => 0

/-- The exit code of `PDFCraftCLI.run` (pdfcraft.py lines 297-342):
1 on interrupt, failed argument validation or any raised exception
(a falsy load result raises `ValueError` at line 231); there is no
emptiness check on the extracted bookmarks, the filter result or the
split result. `toMd` is whether `--post tomd` was given. -/
def PDFCraftCLI_run (env : RunEnv) (ops : List Char)
    (post : Option (List Char)) (source : Option (List Char))
    (level : Option Nat) (keywords : List (List Char))
    (case_sensitive toMd : Bool) : Nat :=
  if env.interrupted then 1
  else if !validate_arguments ops post source level keywords then 1
  else match env.load with
  | .error _ => 1
  | .ok pathOk =>
    if !pathOk then 1
    else match env.extract with
    | .error _ => 1
    | .ok bookmarks =>
      let _ := applyFilter level keywords case_sensitive bookmarks
      match env.split with
      | .error _ => 1
      | .ok _ =>
        match (if toMd then env.post else .ok ()) with
        | .error _ => 1
        | .ok _ => 0

lemma dedupByPage_sublist : ∀ (l : List Bookmark) (seen : List Nat),
    (dedupByPage l seen).Sublist l
  | [], _ => List.Sublist.refl []
  | b :: rest, seen => by
    simp only [dedupByPage]
    split
    · exact (dedupByPage_sublist rest seen).cons b
    · exact (dedupByPage_sublist rest (b.page :: seen)).cons₂ b

lemma mem_dedupByPage_not_seen : ∀ (l : List Bookmark) (seen : List Nat) (b : Bookmark),
    b ∈ dedupByPage l seen → b.page ∉ seen
  | [], _, _, h => by simp [dedupByPage] at h
  | c :: rest, seen, b, h => by
    simp only [dedupByPage] at h
    split at h
    · exact mem_dedupByPage_not_seen rest seen b h
    · rcases List.mem_cons.mp h with rfl | h'
      · assumption
      · have := mem_dedupByPage_not_seen rest (c.page :: seen) b h'
        exact fun hin => this (List.mem_cons_of_mem _ hin)

lemma dedupByPage_pairwise_ne : ∀ (l : List Bookmark) (seen : List Nat),
    (dedupByPage l seen).Pairwise (fun a b => a.page ≠ b.page)
  | [], _ => List.Pairwise.nil
  | c :: rest, seen => by
    simp only [dedupByPage]
    split
    · exact dedupByPage_pairwise_ne rest seen
    · refine List.Pairwise.cons ?_ (dedupByPage_pairwise_ne rest (c.page :: seen))
      intro b hb hcb
      exact mem_dedupByPage_not_seen rest (c.page :: seen) b hb (hcb ▸ List.mem_cons_self _ _)

lemma dedupByPage_pairwise_lt (l : List Bookmark) (seen : List Nat)
    (hs : l.Pairwise pageLE) :
    (dedupByPage l seen).Pairwise (fun a b => a.page < b.page) := by
  have hle : (dedupByPage l seen).Pairwise pageLE :=
    List.Pairwise.sublist (dedupByPage_sublist l seen) hs
  have hne := dedupByPage_pairwise_ne l seen
  exact (hle.and hne).imp (fun h => Nat.lt_of_le_of_ne h.1 h.2)

lemma sort_pairwise_le (bs : List Bookmark) :
    (List.insertionSort pageLE bs).Pairwise pageLE :=
  List.sorted_insertionSort pageLE bs

lemma buildSplitPoints_cons_cons (b b2 : Bookmark) (rest2 : List Bookmark) :
    buildSplitPoints (b :: b2 :: rest2) =
      if b.page < b2.page then
        ⟨b.title, b.page, some (b2.page - 1), b.level⟩ :: buildSplitPoints (b2 :: rest2)
      else buildSplitPoints (b2 :: rest2) := rfl

lemma buildSplitPoints_length : ∀ l : List Bookmark,
    (buildSplitPoints l).length ≤ l.length := by
  intro l
  induction l with
  | nil => simp [buildSplitPoints]
  | cons b rest ih =>
    cases rest with
    | nil => simp [buildSplitPoints]
    | cons b2 rest2 =>
      simp only [buildSplitPoints]
      split
      · simpa using Nat.succ_le_succ ih
      · exact Nat.le_succ_of_le ih

lemma mem_buildSplitPoints_start : ∀ (l : List Bookmark) (sp : SplitPoint),
    sp ∈ buildSplitPoints l → ∃ b ∈ l, sp.start_page = b.page := by
  intro l
  induction l with
  | nil => simp [buildSplitPoints]
  | cons b rest ih =>
    intro sp hsp
    cases rest with
    | nil =>
      simp only [buildSplitPoints, List.mem_singleton] at hsp
      exact ⟨b, List.mem_cons_self _ _, by simp [hsp]⟩
    | cons b2 rest2 =>
      simp only [buildSplitPoints] at hsp
      split at hsp
      · rcases List.mem_cons.mp hsp with rfl | h'
        · exact ⟨b, List.mem_cons_self _ _, rfl⟩
        · obtain ⟨c, hc, hcs⟩ := ih sp h'
          exact ⟨c, List.mem_cons_of_mem _ hc, hcs⟩
      · obtain ⟨c, hc, hcs⟩ := ih sp hsp
        exact ⟨c, List.mem_cons_of_mem _ hc, hcs⟩

lemma buildSplitPoints_pairwise : ∀ l : List Bookmark,
    l.Pairwise (fun a b => a.page < b.page) →
    (buildSplitPoints l).Pairwise (fun A B => A.start_page < B.start_page) := by
  intro l
  induction l with
  | nil => simp [buildSplitPoints]
  | cons b rest ih =>
    intro h
    rcases List.pairwise_cons.mp h with ⟨hb, hrest⟩
    cases rest with
    | nil => simp [buildSplitPoints]
    | cons b2 rest2 =>
      rw [buildSplitPoints_cons_cons, if_pos (hb b2 (List.mem_cons_self _ _))]
      refine List.Pairwise.cons ?_ (ih hrest)
      intro sp hsp
      obtain ⟨c, hc, hcs⟩ := mem_buildSplitPoints_start _ sp hsp
      simpa [hcs] using hb c hc

lemma buildSplitPoints_head_start (b : Bookmark) (rest : List Bookmark)
    (h : (b :: rest).Pairwise (fun a b => a.page < b.page)) :
    ∃ sp tail, buildSplitPoints (b :: rest) = sp :: tail ∧ sp.start_page = b.page := by
  cases rest with
  | nil => exact ⟨_, [], rfl, rfl⟩
  | cons b2 rest2 =>
    have hb : b.page < b2.page :=
      (List.pairwise_cons.mp h).1 b2 (List.mem_cons_self _ _)
    rw [buildSplitPoints_cons_cons, if_pos hb]
    exact ⟨_, _, rfl, rfl⟩

lemma buildSplitPoints_chain : ∀ l : List Bookmark,
    l.Pairwise (fun a b => a.page < b.page) →
    (buildSplitPoints l).Chain' (fun A B => A.end_page = some (B.start_page - 1)) := by
  intro l
  induction l with
  | nil => simp [buildSplitPoints]
  | cons b rest ih =>
    intro h
    rcases List.pairwise_cons.mp h with ⟨hb, hrest⟩
    cases rest with
    | nil => simp [buildSplitPoints]
    | cons b2 rest2 =>
      rw [buildSplitPoints_cons_cons, if_pos (hb b2 (List.mem_cons_self _ _))]
      obtain ⟨sp2, tail, heq, hstart⟩ := buildSplitPoints_head_start b2 rest2 hrest
      rw [heq]
      refine List.chain'_cons.mpr ⟨?_, heq ▸ ih hrest⟩
      simp [hstart]

lemma buildSplitPoints_last_decomp : ∀ l : List Bookmark, l ≠ [] →
    ∃ l' lastSp, buildSplitPoints l = l' ++ [lastSp] ∧ lastSp.end_page = none ∧
      ∀ sp ∈ l', sp.end_page ≠ none := by
  intro l
  induction l with
  | nil => intro h; exact absurd rfl h
  | cons b rest ih =>
    intro _
    cases rest with
    | nil =>
      exact ⟨[], ⟨b.title, b.page, none, b.level⟩, rfl, rfl, by simp⟩
    | cons b2 rest2 =>
      obtain ⟨l', lastSp, heq, hnone, hl'⟩ := ih (by simp)
      rw [buildSplitPoints_cons_cons]
      split
      · refine ⟨⟨b.title, b.page, some (b2.page - 1), b.level⟩ :: l', lastSp, ?_, hnone, ?_⟩
        · rw [heq]; rfl
        · intro sp hsp
          rcases List.mem_cons.mp hsp with rfl | h'
          · simp
          · exact hl' sp h'
      · exact ⟨l', lastSp, heq, hnone, hl'⟩

lemma buildSplitPoints_ne_nil (l : List Bookmark) (h : l ≠ []) :
    buildSplitPoints l ≠ [] := by
  obtain ⟨l', lastSp, heq, -, -⟩ := buildSplitPoints_last_decomp l h
  simp [heq]

lemma dedupByPage_cons_nil (b : Bookmark) (rest : List Bookmark) :
    dedupByPage (b :: rest) [] = b :: dedupByPage rest [b.page] := by
  simp [dedupByPage]

lemma get_split_points_of_ne_nil (bs : List Bookmark) (h : bs ≠ []) :
    get_split_points bs =
      buildSplitPoints (dedupByPage (List.insertionSort pageLE bs) []) := by
  simp [get_split_points, h]

/-- C1: for every list of bookmarks with pairwise-distinct pages, the
output of `get_split_points` is no longer than the input, is strictly
ascending in `start_page`, and has pairwise-distinct `start_page`s. -/
theorem range_deriver_length_sorted_nodup (bs : List Bookmark)
    (hdistinct : bs.Pairwise (fun a b => a.page ≠ b.page)) :
    (get_split_points bs).length ≤ bs.length ∧
    (get_split_points bs).Pairwise (fun A B => A.start_page < B.start_page) ∧
    (get_split_points bs).Pairwise (fun A B => A.start_page ≠ B.start_page) := by
  by_cases hbs : bs = []
  · subst hbs; simp [get_split_points]
  · rw [get_split_points_of_ne_nil bs hbs]
    have hlt := dedupByPage_pairwise_lt _ [] (sort_pairwise_le bs)
    have hpw := buildSplitPoints_pairwise _ hlt
    refine ⟨?_, hpw, hpw.imp Nat.ne_of_lt⟩
    calc (buildSplitPoints _).length
        ≤ (dedupByPage (List.insertionSort pageLE bs) []).length :=
          buildSplitPoints_length _
      _ ≤ (List.insertionSort pageLE bs).length := (dedupByPage_sublist _ _).length_le
      _ = bs.length := (List.perm_insertionSort pageLE bs).length_eq

theorem range_deriver_length_sorted_nodup_witness :
    (get_split_points [⟨"A".toList, 1, 0⟩, ⟨"B".toList, 5, 1⟩]).length ≤
        ([⟨"A".toList, 1, 0⟩, ⟨"B".toList, 5, 1⟩] : List Bookmark).length ∧
    (get_split_points [⟨"A".toList, 1, 0⟩, ⟨"B".toList, 5, 1⟩]).Pairwise
      (fun A B => A.start_page < B.start_page) ∧
    (get_split_points [⟨"A".toList, 1, 0⟩, ⟨"B".toList, 5, 1⟩]).Pairwise
      (fun A B => A.start_page ≠ B.start_page) :=
  range_deriver_length_sorted_nodup _ (by decide)

/-- C2: every pair of consecutive split points `(A, B)` emitted by
`get_split_points` satisfies `A.end_page = B.start_page - 1`, so the
ranges are contiguous and non-overlapping. -/
theorem range_deriver_contiguous (bs : List Bookmark) :
    (get_split_points bs).Chain' (fun A B => A.end_page = some (B.start_page - 1)) := by
  by_cases hbs : bs = []
  · subst hbs; simp [get_split_points]
  · rw [get_split_points_of_ne_nil bs hbs]
    exact buildSplitPoints_chain _ (dedupByPage_pairwise_lt _ [] (sort_pairwise_le bs))

/-- C3: for every non-empty bookmark list, `get_split_points` ends with
exactly one open-ended split point, which has the greatest `start_page`;
a single bookmark yields exactly one open-ended split point at its page;
and the splitter resolves the open end to the document's total page
count (`resolveEnd`, pdf_splitter.py lines 107-108). -/
theorem range_deriver_last_open (bs : List Bookmark) (h : bs ≠ []) :
    (∃ l' lastSp, get_split_points bs = l' ++ [lastSp] ∧ lastSp.end_page = none ∧
      (∀ sp ∈ l', sp.end_page ≠ none) ∧ ∀ sp ∈ l', sp.start_page < lastSp.start_page) ∧
    (∀ b : Bookmark, get_split_points [b] = [⟨b.title, b.page, none, b.level⟩]) ∧
    (∀ total_pages : Nat, resolveEnd none total_pages = total_pages) := by
  refine ⟨?_, fun b => rfl, fun t => rfl⟩
  rw [get_split_points_of_ne_nil bs h]
  have hsortne : List.insertionSort pageLE bs ≠ [] := by
    intro hnil
    have hperm := List.perm_insertionSort pageLE bs
    rw [hnil] at hperm
    exact h hperm.symm.eq_nil
  have hdedupne : dedupByPage (List.insertionSort pageLE bs) [] ≠ [] := by
    cases hs : List.insertionSort pageLE bs with
    | nil => exact absurd hs hsortne
    | cons c rest => simp [dedupByPage_cons_nil]
  obtain ⟨l', lastSp, heq, hnone, hl'⟩ := buildSplitPoints_last_decomp _ hdedupne
  have hpw := buildSplitPoints_pairwise _ (dedupByPage_pairwise_lt _ [] (sort_pairwise_le bs))
  rw [heq] at hpw
  obtain ⟨-, -, hcross⟩ := List.pairwise_append.mp hpw
  exact ⟨l', lastSp, heq, hnone, hl',
    fun sp hsp => hcross sp hsp lastSp (List.mem_singleton_self _)⟩

theorem range_deriver_last_open_witness :
    (∃ l' lastSp,
      get_split_points [⟨"A".toList, 1, 0⟩, ⟨"B".toList, 5, 1⟩] = l' ++ [lastSp] ∧
      lastSp.end_page = none ∧ (∀ sp ∈ l', sp.end_page ≠ none) ∧
      ∀ sp ∈ l', sp.start_page < lastSp.start_page) ∧
    (∀ b : Bookmark, get_split_points [b] = [⟨b.title, b.page, none, b.level⟩]) ∧
    (∀ total_pages : Nat, resolveEnd none total_pages = total_pages) :=
  range_deriver_last_open _ (by decide)

/-- C4: `get_split_points` sorts stably by page, deduplicates by page
keeping the first occurrence in sorted order, and pairs up the result:
on the spec's scenario the duplicate-page "Ch1.1" entry is dropped and
the ranges are `[1-2, 3-6, 7-open]`; a second unsorted input checks the
sorting itself. -/
theorem range_deriver_scenario_stable_dedup :
    get_split_points
        [⟨"Intro".toList, 1, 0⟩, ⟨"Ch1".toList, 3, 0⟩,
         ⟨"Ch1.1".toList, 3, 1⟩, ⟨"Ch2".toList, 7, 0⟩] =
      [⟨"Intro".toList, 1, some 2, 0⟩, ⟨"Ch1".toList, 3, some 6, 0⟩,
       ⟨"Ch2".toList, 7, none, 0⟩] ∧
    get_split_points [⟨"B".toList, 5, 0⟩, ⟨"A".toList, 2, 0⟩] =
      [⟨"A".toList, 2, some 4, 0⟩, ⟨"B".toList, 5, none, 0⟩] := by
  constructor <;> decide

/-- C9: `get_split_points` on the empty list returns the empty list
(and, being a total function, raises nothing). -/
theorem range_deriver_empty : get_split_points [] = [] := rfl

/-- C10: `get_split_points` returns the empty list exactly on the empty
input; every non-empty input yields at least one split point. -/
theorem range_deriver_nonempty_iff (bs : List Bookmark) :
    get_split_points bs = [] ↔ bs = [] := by
  constructor
  · intro hout
    by_contra hbs
    rw [get_split_points_of_ne_nil bs hbs] at hout
    have hsortne : List.insertionSort pageLE bs ≠ [] := by
      intro hnil
      have hperm := List.perm_insertionSort pageLE bs
      rw [hnil] at hperm
      exact hbs hperm.symm.eq_nil
    have hdedupne : dedupByPage (List.insertionSort pageLE bs) [] ≠ [] := by
      cases hs : List.insertionSort pageLE bs with
      | nil => exact absurd hs hsortne
      | cons c rest => simp [dedupByPage_cons_nil]
    exact buildSplitPoints_ne_nil _ hdedupne hout
  · rintro rfl; rfl

lemma isSepChar_eq_false_of_word {c : Char} (h : isWordChar c = true) :
    isSepChar c = false := by
  by_contra hsep
  rw [Bool.not_eq_false] at hsep
  simp only [isSepChar, isSpaceChar, Bool.or_eq_true, decide_eq_true_eq] at hsep
  rcases hsep with (((((rfl | rfl) | rfl) | rfl) | rfl) | rfl) | rfl <;> simp [isWordChar] at h

lemma mem_stripIllegal {c : Char} {s : List Char} (h : c ∈ stripIllegal s) :
    (isWordChar c || isSepChar c) = true := (List.mem_filter.mp h).2

lemma stripIllegal_eq_self {s : List Char} (h : ∀ c ∈ s, isWordChar c = true) :
    stripIllegal s = s :=
  List.filter_eq_self.mpr (fun c hc => by simp [h c hc])

lemma mem_collapseSepsAux : ∀ (s : List Char) (b : Bool) {c : Char},
    c ∈ collapseSepsAux s b → c = '_' ∨ (c ∈ s ∧ isSepChar c = false) := by
  intro s
  induction s with
  | nil => intro b c h; simp [collapseSepsAux] at h
  | cons d rest ih =>
    intro b c h
    cases hsep : isSepChar d with
    | true =>
      cases b with
      | true =>
        simp only [collapseSepsAux, hsep, if_true] at h
        rcases ih true h with h' | ⟨hm, hs⟩
        · exact Or.inl h'
        · exact Or.inr ⟨List.mem_cons_of_mem _ hm, hs⟩
      | false =>
        simp only [collapseSepsAux, hsep, if_true, Bool.false_eq_true, if_false] at h
        rcases List.mem_cons.mp h with rfl | h'
        · exact Or.inl rfl
        · rcases ih true h' with h'' | ⟨hm, hs⟩
          · exact Or.inl h''
          · exact Or.inr ⟨List.mem_cons_of_mem _ hm, hs⟩
    | false =>
      simp only [collapseSepsAux, hsep, Bool.false_eq_true, if_false] at h
      rcases List.mem_cons.mp h with rfl | h'
      · exact Or.inr ⟨List.mem_cons_self _ _, hsep⟩
      · rcases ih false h' with h'' | ⟨hm, hs⟩
        · exact Or.inl h''
        · exact Or.inr ⟨List.mem_cons_of_mem _ hm, hs⟩

lemma collapseSepsAux_eq_self : ∀ (s : List Char) (b : Bool),
    (∀ c ∈ s, isSepChar c = false) → collapseSepsAux s b = s := by
  intro s
  induction s with
  | nil => intro b _; rfl
  | cons d rest ih =>
    intro b h
    have hd : isSepChar d = false := h d (List.mem_cons_self _ _)
    simp only [collapseSepsAux, hd, Bool.false_eq_true, if_false]
    rw [ih false (fun c hc => h c (List.mem_cons_of_mem _ hc))]

lemma mem_collapseSeps_word {s : List Char}
    (h : ∀ c ∈ s, (isWordChar c || isSepChar c) = true) :
    ∀ c ∈ collapseSeps s, isWordChar c = true := by
  intro c hc
  rcases mem_collapseSepsAux s false hc with rfl | ⟨hm, hs⟩
  · rfl
  · have := h c hm
    simpa [hs] using this

lemma head?_dropWhile_not {p : Char → Bool} : ∀ {s : List Char} {c : Char},
    (s.dropWhile p).head? = some c → p c = false := by
  intro s
  induction s with
  | nil => intro c h; simp [List.dropWhile] at h
  | cons d rest ih =>
    intro c h
    rw [List.dropWhile_cons] at h
    split at h
    · exact ih h
    · rename_i hp
      simp only [List.head?_cons, Option.some.injEq] at h
      subst h
      exact Bool.not_eq_true _ ▸ (by simpa using hp)

lemma dropWhile_suffix (p : Char → Bool) : ∀ s : List Char, s.dropWhile p <:+ s := by
  intro s
  induction s with
  | nil => exact List.suffix_refl []
  | cons d rest ih =>
    rw [List.dropWhile_cons]
    split
    · exact ih.trans (List.suffix_cons d rest)
    · exact List.suffix_refl _

lemma stripUnderscores_subset (s : List Char) : stripUnderscores s ⊆ s := by
  intro c hc
  simp only [stripUnderscores, dropTrailingUnderscores, List.mem_reverse] at hc
  have h1 := (dropWhile_suffix (fun c => c = '_') (s.dropWhile (fun c => c = '_')).reverse).sublist.subset hc
  rw [List.mem_reverse] at h1
  exact (dropWhile_suffix (fun c => c = '_') s).sublist.subset h1

lemma head?_stripUnderscores {s : List Char} {c : Char}
    (h : (stripUnderscores s).head? = some c) : c ≠ '_' := by
  have hne : stripUnderscores s ≠ [] := by
    intro hnil; rw [hnil] at h; simp at h
  obtain ⟨u, hu⟩ := dropWhile_suffix (fun c => c = '_')
    (s.dropWhile (fun c => c = '_')).reverse
  have hpre : stripUnderscores s ++ u.reverse = s.dropWhile (fun c => c = '_') := by
    have := congrArg List.reverse hu
    simpa [stripUnderscores, dropTrailingUnderscores] using this
  have hhead : (s.dropWhile (fun c => c = '_')).head? = some c := by
    rw [← hpre, List.head?_append_of_ne_nil _ hne, h]
  have := head?_dropWhile_not hhead
  simpa using this

lemma getLast?_stripUnderscores {s : List Char} {c : Char}
    (h : (stripUnderscores s).getLast? = some c) : c ≠ '_' := by
  rw [← List.head?_reverse] at h
  simp only [stripUnderscores, dropTrailingUnderscores, List.reverse_reverse] at h
  have := head?_dropWhile_not h
  simpa using this

lemma dropWhile_underscore_eq_self {s : List Char} (h : s.head? ≠ some '_') :
    s.dropWhile (fun c => c = '_') = s := by
  cases s with
  | nil => rfl
  | cons d rest =>
    rw [List.dropWhile_cons, if_neg]
    simp only [List.head?_cons, ne_eq, Option.some.injEq] at h
    simp [h]

lemma stripUnderscores_eq_self {s : List Char} (h1 : s.head? ≠ some '_')
    (h2 : s.getLast? ≠ some '_') : stripUnderscores s = s := by
  rw [stripUnderscores, dropWhile_underscore_eq_self h1, dropTrailingUnderscores,
    dropWhile_underscore_eq_self (by rwa [List.head?_reverse]), List.reverse_reverse]

lemma mem_natDigitsAux : ∀ (fuel n : Nat) {c : Char}, c ∈ natDigitsAux fuel n →
    ∃ d, d < 10 ∧ c = digitChar d := by
  intro fuel
  induction fuel with
  | zero => intro n c h; simp [natDigitsAux] at h
  | succ fuel ih =>
    intro n c h
    simp only [natDigitsAux] at h
    split at h
    · rename_i hn
      simp only [List.mem_singleton] at h
      exact ⟨n, hn, h⟩
    · rcases List.mem_append.mp h with h' | h'
      · exact ih _ h'
      · simp only [List.mem_singleton] at h'
        exact ⟨n % 10, Nat.mod_lt _ (by omega), h'⟩

lemma isWordChar_digitChar {d : Nat} (h : d < 10) : isWordChar (digitChar d) = true := by
  interval_cases d <;> decide

lemma digitChar_ne_underscore {d : Nat} (h : d < 10) : digitChar d ≠ '_' := by
  interval_cases d <;> decide

lemma natDigitsAux_length : ∀ (fuel k n : Nat), n < 10 ^ k →
    (natDigitsAux fuel n).length ≤ max k 1 := by
  intro fuel
  induction fuel with
  | zero => intro k n _; simp [natDigitsAux]
  | succ fuel ih =>
    intro k n hn
    simp only [natDigitsAux]
    split
    · simp
    · rename_i hge
      push_neg at hge
      have hk : 2 ≤ k := by
        by_contra hk
        push_neg at hk
        interval_cases k <;> omega
      have hdiv : n / 10 < 10 ^ (k - 1) := by
        rw [Nat.div_lt_iff_lt_mul (by omega : (0:Nat) < 10)]
        have hpow : 10 ^ (k - 1) * 10 = 10 ^ k := by
          rw [← pow_succ]
          congr 1
          omega
        omega
      have h1 := ih (k - 1) (n / 10) hdiv
      have hmax1 : max (k - 1) 1 = k - 1 := Nat.max_eq_left (by omega)
      have hmax2 : max k 1 = k := Nat.max_eq_left (by omega)
      simp only [List.length_append, List.length_singleton]
      omega

lemma natDigits_getLast (n : Nat) :
    ∃ d, d < 10 ∧ (natDigits n).getLast? = some (digitChar d) := by
  simp only [natDigits, natDigitsAux]
  split
  · rename_i hn
    exact ⟨n, hn, rfl⟩
  · exact ⟨n % 10, Nat.mod_lt _ (by omega), List.getLast?_concat _⟩

lemma mem_pad3_word {n : Nat} : ∀ c ∈ pad3 n, isWordChar c = true := by
  intro c hc
  rcases List.mem_append.mp hc with h | h
  · rw [(List.mem_replicate.mp h).2]; decide
  · obtain ⟨d, hd, rfl⟩ := mem_natDigitsAux _ _ h
    exact isWordChar_digitChar hd

lemma pad3_length_le {n k : Nat} (hn : n < 10 ^ k) (hk : 3 ≤ k) :
    (pad3 n).length ≤ k := by
  have h1 := natDigitsAux_length (n + 1) k n hn
  have hmax : max k 1 = k := Nat.max_eq_left (by omega)
  simp only [pad3, List.length_append, List.length_replicate]
  simp only [natDigits] at h1 ⊢
  omega

lemma sectionStr_eq : "section_".toList = ['s', 'e', 'c', 't', 'i', 'o', 'n', '_'] := rfl

lemma fallback_word {n : Nat} : ∀ c ∈ "section_".toList ++ pad3 n, isWordChar c = true := by
  intro c hc
  rcases List.mem_append.mp hc with h | h
  · rw [sectionStr_eq] at h
    simp only [List.mem_cons, List.mem_singleton, List.not_mem_nil, or_false] at h
    rcases h with rfl | rfl | rfl | rfl | rfl | rfl | rfl | rfl <;> decide
  · exact mem_pad3_word c h

lemma fallback_getLast {n : Nat} :
    ∃ d, d < 10 ∧ ("section_".toList ++ pad3 n).getLast? = some (digitChar d) := by
  obtain ⟨d, hd, hlast⟩ := natDigits_getLast n
  refine ⟨d, hd, ?_⟩
  rw [List.getLast?_append, pad3, List.getLast?_append, hlast]
  rfl

lemma sanitizeTitle_spec (t : List Char) (i : Nat) :
    (∀ c ∈ sanitizeTitle t i, isWordChar c = true) ∧
    sanitizeTitle t i ≠ [] ∧
    ∀ c, (sanitizeTitle t i).head? = some c → c ≠ '_' := by
  simp only [sanitizeTitle]
  set c3 := stripUnderscores (collapseSeps (stripIllegal t)) with hc3
  set c4 := if c3.length > 50 then c3.take 50 else c3 with hc4
  have hword3 : ∀ c ∈ c3, isWordChar c = true := fun c hc =>
    mem_collapseSeps_word (fun d hd => mem_stripIllegal hd) c (stripUnderscores_subset _ hc)
  have hsub : c4 ⊆ c3 := by
    rw [hc4]; split
    · exact List.take_subset _ _
    · exact fun c hc => hc
  have hhead : c4.head? = c3.head? := by
    rw [hc4]; split
    · rw [List.head?_take]; simp
    · rfl
  by_cases hnil : c4 = []
  · rw [if_pos hnil]
    refine ⟨fallback_word, by rw [sectionStr_eq]; simp, ?_⟩
    intro c hc
    rw [sectionStr_eq] at hc
    simp only [List.cons_append, List.head?_cons, Option.some.injEq] at hc
    subst hc
    decide
  · rw [if_neg hnil]
    refine ⟨fun c hc => hword3 c (hsub hc), hnil, ?_⟩
    intro c hc
    rw [hhead] at hc
    exact head?_stripUnderscores (hc3 ▸ hc)

lemma sanitizeTitle_length (t : List Char) (i : Nat) (hidx : i + 1 < 10 ^ 42) :
    (sanitizeTitle t i).length ≤ 50 := by
  simp only [sanitizeTitle]
  set c3 := stripUnderscores (collapseSeps (stripIllegal t)) with hc3
  set c4 := if c3.length > 50 then c3.take 50 else c3 with hc4
  have hlen4 : c4.length ≤ 50 := by
    rw [hc4]; split
    · rw [List.length_take]; omega
    · omega
  split
  · have hp := pad3_length_le hidx (by omega)
    rw [List.length_append, sectionStr_eq]
    simpa using by omega
  · exact hlen4

lemma sanitizeTitle_fixed (r : List Char) (i : Nat)
    (hword : ∀ c ∈ r, isWordChar c = true) (hne : r ≠ [])
    (hhead : ∀ c, r.head? = some c → c ≠ '_')
    (hlast : ∀ c, r.getLast? = some c → c ≠ '_')
    (hlen : r.length ≤ 50) : sanitizeTitle r i = r := by
  have h1 : stripIllegal r = r := stripIllegal_eq_self hword
  have h2 : collapseSeps r = r :=
    collapseSepsAux_eq_self r false (fun c hc => isSepChar_eq_false_of_word (hword c hc))
  have hh : r.head? ≠ some '_' := by
    intro h; exact hhead '_' h rfl
  have hl : r.getLast? ≠ some '_' := by
    intro h; exact hlast '_' h rfl
  have h3 : stripUnderscores r = r := stripUnderscores_eq_self hh hl
  simp only [sanitizeTitle, h1, h2, h3]
  rw [if_neg (show ¬(r.length > 50) by omega), if_neg hne]

/-- C5 counterexample: sanitization is not idempotent. The 51-character
cleaned title `'a' * 49 ++ "_a"` is truncated to 50 characters, which
creates a trailing underscore; a second sanitization strips it. -/
theorem sanitize_not_idempotent :
    sanitizeTitle (sanitizeTitle (List.replicate 49 'a' ++ [' ', 'a']) 0) 0 ≠
      sanitizeTitle (List.replicate 49 'a' ++ [' ', 'a']) 0 := by decide

/-- C5 (amended): sanitization of an already-sanitized title returns it
unchanged provided the sanitized title does not end in an underscore
(which only the 50-character truncation can produce) and the 1-indexed
fallback position has at most 42 decimal digits; the output length never
exceeds 50 and the output is never empty. -/
theorem sanitize_idempotent_bounded (t : List Char) (i : Nat)
    (hlast : (sanitizeTitle t i).getLast? ≠ some '_')
    (hidx : i + 1 < 10 ^ 42) :
    sanitizeTitle (sanitizeTitle t i) i = sanitizeTitle t i ∧
    (sanitizeTitle t i).length ≤ 50 ∧
    sanitizeTitle t i ≠ [] := by
  obtain ⟨hword, hne, hhead⟩ := sanitizeTitle_spec t i
  have hlen := sanitizeTitle_length t i hidx
  refine ⟨sanitizeTitle_fixed _ i hword hne hhead ?_ hlen, hlen, hne⟩
  intro c hc
  intro hc'
  exact hlast (hc' ▸ hc)

theorem sanitize_idempotent_bounded_witness :
    sanitizeTitle (sanitizeTitle "A/B: Overview!!".toList 0) 0 =
        sanitizeTitle "A/B: Overview!!".toList 0 ∧
    (sanitizeTitle "A/B: Overview!!".toList 0).length ≤ 50 ∧
    sanitizeTitle "A/B: Overview!!".toList 0 ≠ [] :=
  sanitize_idempotent_bounded _ 0 (by decide) (by decide)

/-- C8: the sanitized filename stem of `"A/B: Overview!!"` is
`"AB_Overview"` (and `_generate_filename` appends `.pdf`); a title
cleaned to nothing falls back to `section_NNN` from the 1-indexed batch
position. -/
theorem sanitize_scenario :
    sanitizeTitle "A/B: Overview!!".toList 0 = "AB_Overview".toList ∧
    generate_filename "A/B: Overview!!".toList 0 = "AB_Overview.pdf".toList ∧
    sanitizeTitle "!!!".toList 4 = "section_005".toList := by
  refine ⟨by decide, by decide, by decide⟩

lemma splitLoop_eq_filterMap (total : Nat) (copyOk : Nat → Bool) :
    ∀ l : List (Nat × SplitPoint),
      splitLoop total copyOk l =
        l.filterMap (fun p => (create_split_pdf p.2 total p.1 copyOk).map Prod.fst) := by
  intro l
  induction l with
  | nil => rfl
  | cons p rest ih =>
    obtain ⟨i, sp⟩ := p
    cases h : create_split_pdf sp total i copyOk with
    | none => simp [splitLoop, h, ih]
    | some v => cases v with
      | mk f pages => simp [splitLoop, h, ih]

/-- C7: the splitter clamps the 0-indexed copy range to `[0, total]`,
skips a split point whose clamped range is empty, copies exactly the
pages the page-copy oracle accepts, aborts a split point iff zero pages
were copied, and `split_pdf` returns exactly the names of the files
actually created (skipped split points are simply absent). -/
theorem splitter_clamp_skip_abort :
    (∀ (sp : SplitPoint) (total i : Nat) (copyOk : Nat → Bool),
      min total (resolveEnd sp.end_page total) ≤ max 0 (sp.start_page - 1) →
      create_split_pdf sp total i copyOk = none) ∧
    (∀ (sp : SplitPoint) (total i : Nat) (copyOk : Nat → Bool),
      create_split_pdf sp total i copyOk = none ↔
        (min total (resolveEnd sp.end_page total) ≤ max 0 (sp.start_page - 1) ∨
          (List.range' (max 0 (sp.start_page - 1))
              (min total (resolveEnd sp.end_page total) -
                max 0 (sp.start_page - 1))).filter copyOk = [])) ∧
    (∀ (sp : SplitPoint) (total i : Nat) (copyOk : Nat → Bool) (f : List Char)
        (pages : List Nat),
      create_split_pdf sp total i copyOk = some (f, pages) →
        pages = (List.range' (max 0 (sp.start_page - 1))
            (min total (resolveEnd sp.end_page total) -
              max 0 (sp.start_page - 1))).filter copyOk ∧
        pages ≠ [] ∧ f = generate_filename sp.title i) ∧
    (∀ (split_points : List SplitPoint) (total : Nat) (copyOk : Nat → Bool),
      split_pdf split_points total copyOk =
        split_points.enum.filterMap
          (fun p => (create_split_pdf p.2 total p.1 copyOk).map Prod.fst)) := by
  refine ⟨?_, ?_, ?_, ?_⟩
  · intro sp total i copyOk h
    simp only [create_split_pdf]
    rw [if_pos h]
  · intro sp total i copyOk
    simp only [create_split_pdf]
    by_cases h : min total (resolveEnd sp.end_page total) ≤ max 0 (sp.start_page - 1)
    · rw [if_pos h]
      exact iff_of_true rfl (Or.inl h)
    · rw [if_neg h]
      by_cases hflt : (List.range' (max 0 (sp.start_page - 1))
          (min total (resolveEnd sp.end_page total) - max 0 (sp.start_page - 1))).filter
            copyOk = []
      · rw [if_pos (by rw [List.length_eq_zero]; exact hflt)]
        exact iff_of_true rfl (Or.inr hflt)
      · rw [if_neg (fun hl => hflt (List.length_eq_zero.mp hl))]
        exact iff_of_false (by simp) (fun hc => hc.elim h hflt)
  · intro sp total i copyOk f pages h
    simp only [create_split_pdf] at h
    split at h
    · exact absurd h (by simp)
    · split at h
      · exact absurd h (by simp)
      · rename_i hlen
        simp only [Option.some.injEq, Prod.mk.injEq] at h
        rw [List.length_eq_zero] at hlen
        exact ⟨h.2.symm, h.2 ▸ hlen, h.1.symm⟩
  · intro split_points total copyOk
    exact splitLoop_eq_filterMap total copyOk split_points.enum

theorem splitter_clamp_skip_abort_witness :
    create_split_pdf ⟨"t".toList, 5, some 3, 0⟩ 10 0 (fun _ => true) = none :=
  splitter_clamp_skip_abort.1 _ 10 0 _ (by decide)

/-- C6 counterexample: a `pdfcraft.py` run with valid arguments in which
zero bookmarks are extracted (an empty-result condition) exits with code
0, not 1: `PDFCraftCLI.run` has no emptiness checks. -/
theorem pdfcraft_empty_result_exit_zero :
    PDFCraftCLI_run ⟨false, .ok true, .ok [], .ok [], .ok ()⟩ "split".toList none
      (some "doc.pdf".toList) (some 0) [] false false = 0 := by decide

/-- C6 (amended): every exit code is 0 or 1; both entry points exit 1 on
interrupt, on a load failure (raised or falsy result) and on any raised
collaborator error; `pdfcraft.py` additionally exits 1 on failed
argument validation; the empty-result conditions (no bookmarks, no
matching bookmarks, no split files) exit 1 only through the
`CLIHandler.run` entry point (src/main.py), while `pdfcraft.py` exits 0
on an otherwise-successful empty-result run. -/
theorem exit_codes_amended (env : RunEnv) (level : Option Nat)
    (keywords : List (List Char)) (cs convert : Bool) (ops : List Char)
    (post source : Option (List Char)) (toMd : Bool) :
    (CLIHandler_run env level keywords cs convert = 0 ∨
      CLIHandler_run env level keywords cs convert = 1) ∧
    (PDFCraftCLI_run env ops post source level keywords cs toMd = 0 ∨
      PDFCraftCLI_run env ops post source level keywords cs toMd = 1) ∧
    (env.interrupted = true →
      CLIHandler_run env level keywords cs convert = 1 ∧
      PDFCraftCLI_run env ops post source level keywords cs toMd = 1) ∧
    (env.load = .error () →
      CLIHandler_run env level keywords cs convert = 1 ∧
      PDFCraftCLI_run env ops post source level keywords cs toMd = 1) ∧
    (env.load = .ok false →
      CLIHandler_run env level keywords cs convert = 1 ∧
      PDFCraftCLI_run env ops post source level keywords cs toMd = 1) ∧
    (env.extract = .error () →
      CLIHandler_run env level keywords cs convert = 1 ∧
      PDFCraftCLI_run env ops post source level keywords cs toMd = 1) ∧
    (env.split = .error () →
      CLIHandler_run env level keywords cs convert = 1 ∧
      PDFCraftCLI_run env ops post source level keywords cs toMd = 1) ∧
    ((convert = true → env.post = .error () →
        CLIHandler_run env level keywords cs convert = 1) ∧
      (toMd = true → env.post = .error () →
        PDFCraftCLI_run env ops post source level keywords cs toMd = 1)) ∧
    (validate_arguments ops post source level keywords = false →
      PDFCraftCLI_run env ops post source level keywords cs toMd = 1) ∧
    (env.extract = .ok [] → CLIHandler_run env level keywords cs convert = 1) ∧
    (∀ bookmarks, env.extract = .ok bookmarks →
      applyFilter level keywords cs bookmarks = [] →
      CLIHandler_run env level keywords cs convert = 1) ∧
    (env.split = .ok [] → CLIHandler_run env level keywords cs convert = 1) ∧
    (∀ bookmarks files, env.interrupted = false → env.load = .ok true →
      env.extract = .ok bookmarks → bookmarks ≠ [] →
      applyFilter level keywords cs bookmarks ≠ [] →
      env.split = .ok files → files ≠ [] → env.post = .ok () →
      CLIHandler_run env level keywords cs convert = 0) ∧
    (∀ bookmarks files, env.interrupted = false →
      validate_arguments ops post source level keywords = true →
      env.load = .ok true → env.extract = .ok bookmarks →
      env.split = .ok files → env.post = .ok () →
      PDFCraftCLI_run env ops post source level keywords cs toMd = 0) := by
  obtain ⟨intr, load, ext, splt, pst⟩ := env
  refine ⟨?_, ?_, ?_, ?_, ?_, ?_, ?_, ?_, ?_, ?_, ?_, ?_, ?_, ?_⟩
  · unfold CLIHandler_run
    repeat' split
    all_goals try simp
    all_goals tauto
  · unfold PDFCraftCLI_run
    repeat' split
    all_goals simp
  · rintro rfl
    constructor <;> rfl
  · rintro rfl
    unfold CLIHandler_run PDFCraftCLI_run
    constructor <;> (repeat' split) <;> simp_all
  · rintro rfl
    unfold CLIHandler_run PDFCraftCLI_run
    constructor <;> (repeat' split) <;> simp_all
  · rintro rfl
    unfold CLIHandler_run PDFCraftCLI_run
    constructor <;> (repeat' split) <;> simp_all
  · rintro rfl
    unfold CLIHandler_run PDFCraftCLI_run
    constructor <;> (repeat' split) <;> simp_all
  · constructor
    · rintro rfl rfl
      unfold CLIHandler_run
      repeat' split
      all_goals simp_all
    · rintro rfl rfl
      unfold PDFCraftCLI_run
      repeat' split
      all_goals simp_all
  · intro hv
    unfold PDFCraftCLI_run
    repeat' split
    all_goals simp_all
  · rintro rfl
    unfold CLIHandler_run
    repeat' split
    all_goals simp_all
  · rintro bookmarks rfl hfilt
    unfold CLIHandler_run
    repeat' split
    all_goals simp_all
  · rintro rfl
    unfold CLIHandler_run
    repeat' split
    all_goals simp_all
  · rintro bookmarks files rfl rfl rfl hne hfilt rfl hfne rfl
    simp [CLIHandler_run, hne, hfilt, hfne]
  · rintro bookmarks files rfl hv rfl rfl rfl rfl
    simp [PDFCraftCLI_run, hv]

theorem exit_codes_amended_witness :
    CLIHandler_run ⟨false, .ok true, .ok [], .ok [], .ok ()⟩ (some 0) [] false false = 1 :=
  (exit_codes_amended ⟨false, .ok true, .ok [], .ok [], .ok ()⟩ (some 0) [] false false
    "split".toList none (some "doc.pdf".toList) false).2.2.2.2.2.2.2.2.2.1 rfl
